import Mathlib

/-!
Verification of the sector-code extraction engine in `extract_codes.py`
(repository `SectorCodeExtraction`).

The embedding works over `List Char` (Python `str`).  Python's regex
operations are specialised to the concrete patterns used by the source:

* `re.findall(r"(paritaire[s]?[^\d]*[\d\s.]+)", text, re.IGNORECASE)`
* `re.sub(r"[^\d.]+|\.{2,}", " ", s)`
* `re.sub(r"[\s]+", ";", s)`
* `str.strip`, `str.split(";")`, `str.split(".")`,
  `str.replace(".", "", 1)`, `str.isdigit`

`\d` and `\s` are modelled as ASCII digits and ASCII whitespace (the
source texts and patterns are ASCII apart from letters, which only
appear in the marker word).  The external text extractor
(`UnstructuredFileLoader`) is modelled as an oracle
`Strategy → Option (List Char)`, `none` standing for a raised
exception.  Log-file writes (`log_msg`) are modelled as an emitted list
of `LogEvent`s; the `log` CLI flag only selects whether a message goes
to `logs.txt` in addition to the console, so it does not change the
emitted event stream and is not a parameter of the model.
-/

/-- ASCII whitespace, as matched by Python's `\s` / `str.strip`. -/
def pySpace (c : Char) : Bool :=
  c = ' ' || c = '\t' || c = '\n' || c = '\r' || c = '\x0b' || c = '\x0c'

/-- The character class `[\d\s.]` of the marker pattern. -/
def classChar (c : Char) : Bool :=
  c.isDigit || pySpace c || c = '.'

/-- The literal letters of the marker word `paritaire`. -/
def markerChars : List Char :=
  ['p', 'a', 'r', 'i', 't', 'a', 'i', 'r', 'e']

/-- Drop a case-insensitive occurrence of `pat` from the front of `l`
(`re.IGNORECASE` on the literal marker letters). -/
def dropPrefixCI : List Char → List Char → Option (List Char)
  | [], l => some l
  | _ :: _, [] => none
  | p :: ps, c :: cs => if c.toLower = p then dropPrefixCI ps cs else none

/-- Index of the last character satisfying `classChar`, if any. -/
def lastClassIdx : List Char → Option Nat
  | [] => none
  | c :: cs =>
    match lastClassIdx cs with
    | some i => some (i + 1)
    | none => if classChar c then some 0 else none

/-- Attempt to match `paritaire[s]?[^\d]*[\d\s.]+` at the head of `l`,
returning the length of the match.  Mirrors Python's backtracking: the
greedy `[^\d]*` run is given back from the right until `[\d\s.]+` can
match at least one character, and `[\d\s.]+` then consumes greedily. -/
def tryMatchAt (l : List Char) : Option Nat :=
  match dropPrefixCI markerChars l with
  | none => none
  | some rest1 =>
    let sLen : Nat :=
      match rest1 with
      | c :: _ => if c = 's' || c = 'S' then 1 else 0
      | [] => 0
    let rest2 := rest1.drop sLen
    let nd := rest2.takeWhile (fun c => !c.isDigit)
    match rest2.drop nd.length with
    | [] =>
      -- no digit follows the non-digit run: `[\d\s.]+` must match inside it,
      -- starting at the last space/period of the run
      (lastClassIdx nd).map (fun m => 9 + sLen + m + 1)
    | after@(_ :: _) =>
      -- a digit follows: `[^\d]*` keeps the whole run, `[\d\s.]+` eats on
      some (9 + sLen + nd.length + (after.takeWhile classChar).length)

/-- Non-overlapping left-to-right scan (`re.findall`).  The `skip`
counter steps over the remaining characters of an emitted match. -/
def findGo : Nat → List Char → List (List Char)
  | _, [] => []
  | skip + 1, _ :: cs => findGo skip cs
  | 0, c :: cs =>
    match tryMatchAt (c :: cs) with
    | some n => (c :: cs).take n :: findGo (n - 1) cs
    | none => findGo 0 cs

/-- `re.findall(r"(paritaire[s]?[^\d]*[\d\s.]+)", text, re.IGNORECASE)`. -/
def findall (text : List Char) : List (List Char) :=
  findGo 0 text

/-- Scanner state for `re.sub(r"[^\d.]+|\.{2,}", " ", s)`: whether the
scanner is inside a run that has already been replaced. -/
inductive CleanState
  | top
  | inDots
  | inRun
  deriving DecidableEq

/-- Character-by-character evaluation of
`re.sub(r"[^\d.]+|\.{2,}", " ", s)`: a maximal run of
non-digit-non-period characters becomes one space, a run of two or more
periods becomes one space, a lone period and every digit are kept. -/
def cleanGo : CleanState → List Char → List Char
  | _, [] => []
  | s, c :: cs =>
    if c.isDigit then c :: cleanGo CleanState.top cs
    else if c = '.' then
      match s with
      | CleanState.inDots => cleanGo CleanState.inDots cs
      | _ =>
        match cs with
        | d :: _ =>
          if d = '.' then ' ' :: cleanGo CleanState.inDots cs
          else '.' :: cleanGo CleanState.top cs
        | [] => ['.']
    else
      match s with
      | CleanState.inRun => cleanGo CleanState.inRun cs
      | _ => ' ' :: cleanGo CleanState.inRun cs

/-- `re.sub(r"[^\d.]+|\.{2,}", " ", s)`. -/
def cleanSub (l : List Char) : List Char :=
  cleanGo CleanState.top l

/-- Character-by-character evaluation of `re.sub(r"[\s]+", ";", s)`:
each maximal whitespace run becomes a single semicolon. -/
def collapseGo : Bool → List Char → List Char
  | _, [] => []
  | inRun, c :: cs =>
    if pySpace c then
      if inRun then collapseGo true cs else ';' :: collapseGo true cs
    else c :: collapseGo false cs

/-- `re.sub(r"[\s]+", ";", s)`. -/
def collapseSpaces (l : List Char) : List Char :=
  collapseGo false l

/-- Python `str.strip()`: drop leading and trailing whitespace. -/
def pyStrip (l : List Char) : List Char :=
  ((l.dropWhile pySpace).reverse.dropWhile pySpace).reverse

/-- Python `s.split(";")`: split at every semicolon, keeping empty
parts (so the result is never the empty list). -/
def splitSemi : List Char → List (List Char)
  | [] => [[]]
  | c :: cs =>
    if c = ';' then [] :: splitSemi cs
    else
      match splitSemi cs with
      | t :: ts => (c :: t) :: ts
      | [] => [[c]]

/-- The per-match normalisation of `extract_sector_codes` (line 68-73):
`re.sub(r"[\s]+", ";", re.sub(r"[^\d.]+|\.{2,}", " ", match.strip()).strip()).split(";")`. -/
def processBlock (m : List Char) : List (List Char) :=
  splitSemi (collapseSpaces (pyStrip (cleanSub (pyStrip m))))

/-- The Code Pattern Matcher: `all_codes` of `extract_sector_codes`
(lines 66-74), the flattened candidate lists of all marker matches. -/
def matcher (text : List Char) : List (List Char) :=
  ((findall text).map processBlock).flatten

/-- Python `code.split(".")[0]`: the part before the first period
(or the whole string when there is no period). -/
def takeBeforeDot (code : List Char) : List Char :=
  code.takeWhile (fun c => !(c = '.'))

/-- Python `code.replace(".", "", 1)`: remove the first period, if any. -/
def removeFirstDot : List Char → List Char
  | [] => []
  | c :: cs => if c = '.' then cs else c :: removeFirstDot cs

/-- Python `str.isdigit()` (ASCII model): non-empty and all digits. -/
def pyIsdigit (s : List Char) : Bool :=
  !s.isEmpty && s.all Char.isDigit

/-- The Code Validator's rejection test, line 79 of the source:
`len(number_part) < 3 or not code.replace(".", "", 1).isdigit()`. -/
def isInvalidCode (code : List Char) : Bool :=
  decide ((takeBeforeDot code).length < 3) || !pyIsdigit (removeFirstDot code)

/-- The Code Validator: acceptance is the negation of the rejection
test on line 79. -/
def isValidCode (code : List Char) : Bool :=
  !isInvalidCode code

/-- Modelled from the spec's words (section 4.2), for comparison with
the source's validator: integer portion of length at least 3, and the
candidate with ALL periods stripped consists entirely of digits. -/
def specValidCode (code : List Char) : Bool :=
  decide (3 ≤ (takeBeforeDot code).length) &&
    pyIsdigit (code.filter (fun c => !(c = '.')))

/-- The filtering loop of `extract_sector_codes` (lines 76-89) when
`initial_strategy == "fast"`: the first invalid candidate aborts the
whole attempt (`none`, Python's early `return` of the recursive call);
otherwise every candidate is appended in order. -/
def filterLoopFast : List (List Char) → Option (List (List Char))
  | [] => some []
  | code :: rest =>
    if isInvalidCode code then none
    else (filterLoopFast rest).map (fun f => code :: f)

/-- The same loop when `initial_strategy` is not `"fast"`: an invalid
candidate is silently skipped (the inner `if initial_strategy ==
"fast"` test fails and nothing is appended), a valid one is appended. -/
def filterLoopOcr : List (List Char) → List (List Char)
  | [] => []
  | code :: rest =>
    if isInvalidCode code then filterLoopOcr rest
    else code :: filterLoopOcr rest

/-- `ExtractionStrategy`: the `initial_strategy` strings `"fast"` and
`"ocr_only"` of the source. -/
inductive Strategy
  | fast
  | ocr_only
  deriving DecidableEq

/-- Messages surfaced through `log_msg` (console and/or log files),
abstracted from their interpolated f-string text. -/
inductive LogEvent
  | processing (strategy : Strategy) (pdfPath : List Char)
  | errorLoading (pdfPath : List Char)
  | skippedFile (pdfPath : List Char)
  | invalidSwitch (allCodes : List (List Char))
  | emptySwitch
  | emptyAdvisory
  deriving DecidableEq

/-- `ExtractionOutcome`: the dict returned by `extract_sector_codes`
(lines 108-114). -/
structure Outcome where
  documentName : List Char
  sectorCodes : List Char
  numberOfCodes : Nat
  processingTime : List Char
  usedOcrOnly : Bool
  deriving DecidableEq

/-- `os.path.basename`: the part of the path after the last slash. -/
def basename (p : List Char) : List Char :=
  (p.reverse.takeWhile (fun c => !(c = '/'))).reverse

/-- Python `"; ".join(filtered_codes)`. -/
def joinCodes : List (List Char) → List Char
  | [] => []
  | [c] => c
  | c :: cs => c ++ ';' :: ' ' :: joinCodes cs

/-- `extract_text_from_pdf` (lines 28-49).  The external
`UnstructuredFileLoader` is the oracle; `none` models a raised
exception, in which case the error is logged when `track_errors` is
set, the path is appended to `skipped_files.txt`, and `""` is
returned. -/
def extract_text_from_pdf (oracle : Strategy → Option (List Char))
    (pdf_path : List Char) (strategy : Strategy) (track_errors : Bool) :
    List Char × List LogEvent :=
  match oracle strategy with
  | some text => (text, [])
  | none =>
    ([],
      (if track_errors then [LogEvent.errorLoading pdf_path] else []) ++
        [LogEvent.skippedFile pdf_path])

/-- The dict built on lines 106-114 for a completed attempt. -/
def attemptResult (strategy : Strategy) (pdf_path now : List Char)
    (filtered_codes : List (List Char)) : Outcome :=
  { documentName := basename pdf_path
    sectorCodes := joinCodes filtered_codes
    numberOfCodes := filtered_codes.length
    processingTime := now
    usedOcrOnly := decide (strategy = Strategy.ocr_only) }

/-- `extract_sector_codes` called with `initial_strategy = "ocr_only"`.
Every `initial_strategy == "fast"` test on lines 80, 91 is false, so
the invalid-code branch merely skips the code (`filterLoopOcr`), the
empty-result branch is dead, and no recursive call occurs. -/
def extract_ocr_only (oracle : Strategy → Option (List Char))
    (pdf_path now : List Char) (track_errors : Bool) :
    Outcome × List LogEvent :=
  let tr := extract_text_from_pdf oracle pdf_path Strategy.ocr_only track_errors
  let filtered_codes := filterLoopOcr (matcher tr.1)
  (attemptResult Strategy.ocr_only pdf_path now filtered_codes,
    LogEvent.processing Strategy.ocr_only pdf_path :: tr.2)

/-- `extract_sector_codes` called with `initial_strategy = "fast"`.
The recursive calls on lines 85-87 and 97-99 pass `"ocr_only"`, hence
are calls to `extract_ocr_only`. -/
def extract_fast (oracle : Strategy → Option (List Char))
    (pdf_path now : List Char) (redo_empty track_errors : Bool) :
    Outcome × List LogEvent :=
  let tr := extract_text_from_pdf oracle pdf_path Strategy.fast track_errors
  let all_codes := matcher tr.1
  let procLog := LogEvent.processing Strategy.fast pdf_path :: tr.2
  match filterLoopFast all_codes with
  | none =>
    -- lines 80-87: short or invalid code detected, switch to ocr_only
    let r := extract_ocr_only oracle pdf_path now track_errors
    (r.1, procLog ++ LogEvent.invalidSwitch all_codes :: r.2)
  | some filtered_codes =>
    if filtered_codes.isEmpty then
      if redo_empty then
        -- lines 92-99: no valid codes, redo with ocr_only
        let r := extract_ocr_only oracle pdf_path now track_errors
        (r.1, procLog ++ LogEvent.emptySwitch :: r.2)
      else
        -- lines 100-104: advisory notice, accept the empty outcome
        (attemptResult Strategy.fast pdf_path now filtered_codes,
          procLog ++ [LogEvent.emptyAdvisory])
    else
      (attemptResult Strategy.fast pdf_path now filtered_codes, procLog)

/-- `extract_sector_codes` (lines 52-114), dispatching on
`initial_strategy`. -/
def extract_sector_codes (oracle : Strategy → Option (List Char))
    (pdf_path now : List Char) (strategy : Strategy)
    (redo_empty track_errors : Bool) : Outcome × List LogEvent :=
  match strategy with
  | Strategy.fast => extract_fast oracle pdf_path now redo_empty track_errors
  | Strategy.ocr_only => extract_ocr_only oracle pdf_path now track_errors

/-- Number of extraction attempts in a log: one `Processing [...]`
message is emitted at the top of every `extract_sector_codes` call. -/
def processingCount (events : List LogEvent) : Nat :=
  events.countP (fun e =>
    match e with
    | LogEvent.processing _ _ => true
    | _ => false)

/-- The valid subset of a candidate list. -/
def validSubset (codes : List (List Char)) : List (List Char) :=
  codes.filter isValidCode

/-- The invalid subset of a candidate list. -/
def invalidSubset (codes : List (List Char)) : List (List Char) :=
  codes.filter isInvalidCode

/-- The Result Store upsert of `process_pdfs` (lines 193-194): drop
every row whose `Document Name` equals the new outcome's, then append
the new outcome. -/
def upsert (df : List Outcome) (result : Outcome) : List Outcome :=
  df.filter (fun row => !(row.documentName = result.documentName : Bool)) ++ [result]

/-- Concrete scenario text of spec section 8:
`"... paritaires n° 118.01 218 ..."`. -/
def scenarioText7 : List Char :=
  "avis des commissions paritaires n° 118.01 218 du pays".data

/-- Oracle delivering `scenarioText7` for every strategy. -/
def scenarioOracle7 : Strategy → Option (List Char) :=
  fun _ => some scenarioText7

/-- Concrete scenario text of spec section 8:
`"... paritaire : 12 ..."`. -/
def scenarioText1 : List Char :=
  "comite paritaire : 12 suite".data

/-- Oracle delivering `scenarioText1` for every strategy. -/
def scenarioOracle1 : Strategy → Option (List Char) :=
  fun _ => some scenarioText1

/-- A marker word followed only by a space and leader dots: the code
block contains no digit. -/
def scenarioText6 : List Char :=
  "paritaire ....".data

/-- A text with no marker word at all. -/
def scenarioText3 : List Char :=
  "rien a voir".data

/-- Oracle delivering `scenarioText3` for every strategy. -/
def scenarioOracle3 : Strategy → Option (List Char) :=
  fun _ => some scenarioText3

/-- A first outcome for document `a.pdf`. -/
def scenarioOutcome1 : Outcome :=
  { documentName := "a.pdf".data, sectorCodes := [], numberOfCodes := 0,
    processingTime := "t1".data, usedOcrOnly := false }

/-- A second outcome for the same document `a.pdf`. -/
def scenarioOutcome2 : Outcome :=
  { documentName := "a.pdf".data, sectorCodes := "118.01".data,
    numberOfCodes := 1, processingTime := "t2".data, usedOcrOnly := true }

/-!  Supporting lemmas. -/

theorem filter_upsert_self (df : List Outcome) (o : Outcome) :
    (upsert df o).filter
      (fun r => (r.documentName = o.documentName : Bool)) = [o] := by
  simp [upsert, List.filter_filter]

theorem countP_upsert_le (df : List Outcome) (o : Outcome) (d : List Char)
    (h : df.countP (fun r => (r.documentName = d : Bool)) ≤ 1) :
    (upsert df o).countP (fun r => (r.documentName = d : Bool)) ≤ 1 := by
  have hsub := (List.filter_sublist (l := df)
      (p := fun row => !(row.documentName = o.documentName : Bool))).countP_le
      (fun r => (r.documentName = d : Bool))
  by_cases hd : o.documentName = d
  · -- every surviving old row avoids `o`'s name, hence avoids `d`
    have h0 : (df.filter
        (fun row => !(row.documentName = o.documentName : Bool))).countP
        (fun r => (r.documentName = d : Bool)) = 0 := by
      rw [List.countP_eq_zero]
      intro a ha
      have hq := List.of_mem_filter ha
      simp only [Bool.not_eq_true', decide_eq_false_iff_not] at hq
      simp only [decide_eq_true_eq]
      intro had
      exact hq (had.trans hd.symm)
    simp [upsert, List.countP_append, h0, List.countP_cons, hd]
  · simp only [upsert, List.countP_append, List.countP_cons, List.countP_nil]
    have hno : (decide (o.documentName = d)) = false := by
      simp [hd]
    simp [hno]
    omega

theorem upsert_frame_filter (df : List Outcome) (o : Outcome) (d : List Char)
    (h : ¬ d = o.documentName) :
    (upsert df o).filter (fun r => (r.documentName = d : Bool)) =
      df.filter (fun r => (r.documentName = d : Bool)) := by
  simp only [upsert, List.filter_append, List.filter_filter]
  have h1 : (List.filter (fun a => decide (a.documentName = d) &&
      !decide (a.documentName = o.documentName)) df) =
      df.filter (fun r => (r.documentName = d : Bool)) := by
    apply List.filter_congr
    intro a _
    by_cases had : a.documentName = d
    · simp [had, h]
    · simp [had]
  have h2 : (List.filter (fun r => (r.documentName = d : Bool)) [o]) = [] := by
    simp
    exact fun hh => h hh.symm
  rw [h1, h2, List.append_nil]

theorem filterLoopFast_eq_none_iff (codes : List (List Char)) :
    filterLoopFast codes = none ↔ codes.any isInvalidCode = true := by
  induction codes with
  | nil => simp [filterLoopFast]
  | cons code rest ih =>
    by_cases hc : isInvalidCode code = true
    · simp [filterLoopFast, hc]
    · simp only [Bool.not_eq_true] at hc
      simp [filterLoopFast, hc, Option.map_eq_none, ih]

theorem eq_nil_of_subsets_nil (codes : List (List Char))
    (hinv : invalidSubset codes = []) (hval : validSubset codes = []) :
    codes = [] := by
  cases codes with
  | nil => rfl
  | cons code rest =>
    by_cases hc : isInvalidCode code = true
    · simp [invalidSubset, hc] at hinv
    · simp only [Bool.not_eq_true] at hc
      simp [validSubset, isValidCode, hc] at hval

theorem processingCount_append (l1 l2 : List LogEvent) :
    processingCount (l1 ++ l2) = processingCount l1 + processingCount l2 := by
  simp [processingCount, List.countP_append]

theorem processingCount_extract_text (oracle : Strategy → Option (List Char))
    (pdf_path : List Char) (strategy : Strategy) (track_errors : Bool) :
    processingCount (extract_text_from_pdf oracle pdf_path strategy track_errors).2 = 0 := by
  cases h : oracle strategy with
  | some t => simp [extract_text_from_pdf, h, processingCount]
  | none =>
    cases track_errors <;>
      simp [extract_text_from_pdf, h, processingCount, List.countP_cons]

theorem processingCount_extract_ocr_only (oracle : Strategy → Option (List Char))
    (pdf_path now : List Char) (track_errors : Bool) :
    processingCount (extract_ocr_only oracle pdf_path now track_errors).2 = 1 := by
  simp [extract_ocr_only, processingCount, List.countP_cons]
  have := processingCount_extract_text oracle pdf_path Strategy.ocr_only track_errors
  simpa [processingCount] using this

theorem processingCount_extract_fast_le (oracle : Strategy → Option (List Char))
    (pdf_path now : List Char) (redo_empty track_errors : Bool) :
    processingCount (extract_fast oracle pdf_path now redo_empty track_errors).2 ≤ 2 := by
  have htext := processingCount_extract_text oracle pdf_path Strategy.fast track_errors
  have hocr := processingCount_extract_ocr_only oracle pdf_path now track_errors
  simp only [processingCount] at htext hocr ⊢
  unfold extract_fast
  cases hm : filterLoopFast (matcher
      (extract_text_from_pdf oracle pdf_path Strategy.fast track_errors).1) with
  | none =>
    simp only [hm, List.countP_cons, List.countP_append, if_true,
      Bool.false_eq_true, reduceIte]
    omega
  | some filtered =>
    simp only [hm]
    cases filtered with
    | nil =>
      cases redo_empty <;>
        simp only [List.isEmpty_nil, Bool.true_and, if_true, if_false,
          List.countP_cons, List.countP_append, List.countP_nil,
          cond_true, cond_false, Bool.false_eq_true, reduceIte] <;>
        omega
    | cons a l =>
      simp only [List.isEmpty_cons, Bool.false_eq_true, reduceIte,
        List.countP_cons, List.countP_append]
      omega

theorem splitSemi_ne_nil (l : List Char) : splitSemi l ≠ [] := by
  induction l with
  | nil => simp [splitSemi]
  | cons a l ih =>
    by_cases ha : a = ';'
    · simp [splitSemi, ha]
    · simp only [splitSemi, ha, if_false]
      cases h : splitSemi l with
      | nil => simp
      | cons t ts => simp

theorem mem_of_mem_splitSemi (l : List Char) :
    ∀ tok ∈ splitSemi l, ∀ c ∈ tok, c ∈ l := by
  induction l with
  | nil =>
    intro tok htok c hc
    simp [splitSemi] at htok
    subst htok
    simp at hc
  | cons a l ih =>
    intro tok htok c hc
    by_cases ha : a = ';'
    · simp only [splitSemi, ha, if_true] at htok
      rcases List.mem_cons.mp htok with h | h
      · subst h
        simp at hc
      · exact List.mem_cons_of_mem _ (ih tok h c hc)
    · simp only [splitSemi, ha, if_false] at htok
      cases h : splitSemi l with
      | nil => exact absurd h (splitSemi_ne_nil l)
      | cons t ts =>
        rw [h] at htok
        rcases List.mem_cons.mp htok with h1 | h1
        · subst h1
          rcases List.mem_cons.mp hc with h2 | h2
          · exact h2 ▸ List.mem_cons_self a l
          · have : t ∈ splitSemi l := h ▸ List.mem_cons_self t ts
            exact List.mem_cons_of_mem _ (ih t this c h2)
        · have : tok ∈ splitSemi l := h ▸ List.mem_cons_of_mem t h1
          exact List.mem_cons_of_mem _ (ih tok this c hc)

theorem mem_collapseGo (l : List Char) :
    ∀ (b : Bool) (c : Char), c ∈ collapseGo b l → c = ';' ∨ c ∈ l := by
  induction l with
  | nil =>
    intro b c h
    simp [collapseGo] at h
  | cons a l ih =>
    intro b c h
    by_cases hs : pySpace a = true
    · cases b with
      | true =>
        simp only [collapseGo, hs, if_true] at h
        rcases ih true c h with h1 | h1
        · exact Or.inl h1
        · exact Or.inr (List.mem_cons_of_mem a h1)
      | false =>
        simp only [collapseGo, hs, if_true, if_false] at h
        rcases List.mem_cons.mp h with h1 | h1
        · exact Or.inl h1
        · rcases ih true c h1 with h2 | h2
          · exact Or.inl h2
          · exact Or.inr (List.mem_cons_of_mem a h2)
    · simp only [collapseGo, hs, Bool.false_eq_true, if_false] at h
      rcases List.mem_cons.mp h with h1 | h1
      · exact Or.inr (h1 ▸ List.mem_cons_self a l)
      · rcases ih false c h1 with h2 | h2
        · exact Or.inl h2
        · exact Or.inr (List.mem_cons_of_mem a h2)

theorem mem_cleanGo (l : List Char) :
    ∀ (s : CleanState) (c : Char), c ∈ cleanGo s l → c = ' ' ∨ c = '.' ∨ c ∈ l := by
  induction l with
  | nil =>
    intro s c h
    simp [cleanGo] at h
  | cons a l ih =>
    intro s c h
    have step : ∀ s2 : CleanState, c ∈ cleanGo s2 l → c = ' ' ∨ c = '.' ∨ c ∈ a :: l := by
      intro s2 hh
      rcases ih s2 c hh with h2 | h2 | h2
      · exact Or.inl h2
      · exact Or.inr (Or.inl h2)
      · exact Or.inr (Or.inr (List.mem_cons_of_mem a h2))
    by_cases hd : a.isDigit = true
    · simp only [cleanGo, hd, if_true] at h
      rcases List.mem_cons.mp h with h1 | h1
      · exact Or.inr (Or.inr (h1 ▸ List.mem_cons_self a l))
      · exact step CleanState.top h1
    · by_cases hdot : a = '.'
      · subst hdot
        have hdig : (('.' : Char).isDigit) = false := rfl
        cases s with
        | inDots =>
          simp only [cleanGo, hdig, Bool.false_eq_true, if_false, if_true] at h
          exact step CleanState.inDots h
        | top =>
          simp only [cleanGo, hdig, Bool.false_eq_true, if_false, if_true] at h
          cases l with
          | nil =>
            simp at h
            exact Or.inr (Or.inl h)
          | cons d ds =>
            have h2 : c ∈ (if d = '.' then ' ' :: cleanGo CleanState.inDots (d :: ds)
                else '.' :: cleanGo CleanState.top (d :: ds)) := h
            by_cases hdd : d = '.'
            · rw [if_pos hdd] at h2
              rcases List.mem_cons.mp h2 with h1 | h1
              · exact Or.inl h1
              · exact step CleanState.inDots h1
            · rw [if_neg hdd] at h2
              rcases List.mem_cons.mp h2 with h1 | h1
              · exact Or.inr (Or.inl h1)
              · exact step CleanState.top h1
        | inRun =>
          simp only [cleanGo, hdig, Bool.false_eq_true, if_false, if_true] at h
          cases l with
          | nil =>
            simp at h
            exact Or.inr (Or.inl h)
          | cons d ds =>
            have h2 : c ∈ (if d = '.' then ' ' :: cleanGo CleanState.inDots (d :: ds)
                else '.' :: cleanGo CleanState.top (d :: ds)) := h
            by_cases hdd : d = '.'
            · rw [if_pos hdd] at h2
              rcases List.mem_cons.mp h2 with h1 | h1
              · exact Or.inl h1
              · exact step CleanState.inDots h1
            · rw [if_neg hdd] at h2
              rcases List.mem_cons.mp h2 with h1 | h1
              · exact Or.inr (Or.inl h1)
              · exact step CleanState.top h1
      · cases s with
        | inRun =>
          simp only [cleanGo, hd, Bool.false_eq_true, if_false, hdot] at h
          exact step CleanState.inRun h
        | top =>
          simp only [cleanGo, hd, Bool.false_eq_true, if_false, hdot] at h
          rcases List.mem_cons.mp h with h1 | h1
          · exact Or.inl h1
          · exact step CleanState.inRun h1
        | inDots =>
          simp only [cleanGo, hd, Bool.false_eq_true, if_false, hdot] at h
          rcases List.mem_cons.mp h with h1 | h1
          · exact Or.inl h1
          · exact step CleanState.inRun h1

theorem mem_of_mem_pyStrip (l : List Char) (c : Char) (h : c ∈ pyStrip l) :
    c ∈ l := by
  unfold pyStrip at h
  rw [List.mem_reverse] at h
  have h1 := (List.dropWhile_sublist pySpace).subset h
  rw [List.mem_reverse] at h1
  exact (List.dropWhile_sublist pySpace).subset h1

theorem all_digit_iff_count (l : List Char) :
    (∀ d ∈ l, d.isDigit = true) ↔
      (l.count '.' = 0 ∧ ∀ d ∈ l, d = '.' ∨ d.isDigit = true) := by
  induction l with
  | nil => simp
  | cons a l ih =>
    by_cases ha : a = '.'
    · subst ha
      constructor
      · intro hall
        exact absurd (hall '.' (List.mem_cons_self _ _)) (by decide)
      · intro ⟨h1, _⟩
        rw [List.count_cons_self] at h1
        omega
    · simp only [List.count_cons, List.mem_cons]
      have hne : ((a == '.') : Bool) = false := by
        simp [ha]
      rw [hne]
      simp only [if_false, Bool.false_eq_true, reduceIte, Nat.add_zero]
      constructor
      · intro hall
        have hl := (ih.mp (fun d hd => hall d (Or.inr hd)))
        refine ⟨by simpa using hl.1, ?_⟩
        intro d hd
        rcases hd with h | h
        · exact Or.inr (h ▸ hall a (Or.inl rfl))
        · exact hl.2 d h
      · intro ⟨h1, h2⟩
        intro d hd
        rcases hd with h | h
        · subst h
          rcases h2 d (Or.inl rfl) with h3 | h3
          · exact absurd h3 ha
          · exact h3
        · refine (ih.mpr ⟨by simpa using h1, fun d2 hd2 => h2 d2 (Or.inr hd2)⟩) d h

theorem removeFirstDot_all_digit (c : List Char) :
    (∀ d ∈ removeFirstDot c, d.isDigit = true) ↔
      (c.count '.' ≤ 1 ∧ ∀ d ∈ c, d = '.' ∨ d.isDigit = true) := by
  induction c with
  | nil => simp [removeFirstDot]
  | cons a l ih =>
    by_cases ha : a = '.'
    · subst ha
      simp only [removeFirstDot, reduceIte, List.count_cons_self, List.mem_cons]
      rw [all_digit_iff_count]
      constructor
      · intro ⟨h1, h2⟩
        refine ⟨by omega, ?_⟩
        intro d hd
        rcases hd with h | h
        · exact Or.inl h
        · exact h2 d h
      · intro ⟨h1, h2⟩
        refine ⟨by omega, fun d hd => h2 d (Or.inr hd)⟩
    · simp only [removeFirstDot, if_neg ha, List.count_cons, List.mem_cons]
      have hne : ((a == '.') : Bool) = false := by
        simp [ha]
      rw [hne]
      simp only [if_false, Bool.false_eq_true, reduceIte, Nat.add_zero, List.mem_cons]
      constructor
      · intro hall
        have hl := ih.mp (fun d hd => hall d (Or.inr hd))
        refine ⟨by omega, ?_⟩
        intro d hd
        rcases hd with h | h
        · exact Or.inr (h ▸ hall a (Or.inl rfl))
        · exact hl.2 d h
      · intro ⟨h1, h2⟩
        intro d hd
        rcases hd with h | h
        · subst h
          rcases h2 d (Or.inl rfl) with h3 | h3
          · exact absurd h3 ha
          · exact h3
        · exact (ih.mpr ⟨by omega, fun d2 hd2 => h2 d2 (Or.inr hd2)⟩) d h

theorem length_le_removeFirstDot_succ (c : List Char) :
    c.length ≤ (removeFirstDot c).length + 1 := by
  induction c with
  | nil => simp [removeFirstDot]
  | cons a l ih =>
    by_cases ha : a = '.'
    · simp [removeFirstDot, ha]
    · simp only [removeFirstDot, if_neg ha, List.length_cons]
      omega

theorem isValidCode_iff (code : List Char) :
    isValidCode code = true ↔
      (3 ≤ (takeBeforeDot code).length ∧ code.count '.' ≤ 1 ∧
        ∀ d ∈ code, d = '.' ∨ d.isDigit = true) := by
  simp only [isValidCode, isInvalidCode, pyIsdigit, Bool.not_eq_true',
    Bool.or_eq_false_iff, Bool.not_eq_false, Bool.and_eq_true,
    decide_eq_false_iff_not, Nat.not_lt, List.all_eq_true,
    Bool.not_eq_true]
  simp only [Bool.not_eq_false', Bool.and_eq_true, Bool.not_eq_true',
    List.all_eq_true]
  constructor
  · intro ⟨h1, h2⟩
    exact ⟨h1, (removeFirstDot_all_digit code).mp h2.2⟩
  · intro ⟨h1, h2⟩
    refine ⟨h1, ?_, (removeFirstDot_all_digit code).mpr h2⟩
    have hlen : (takeBeforeDot code).length ≤ code.length :=
      (List.takeWhile_sublist _).length_le
    have hrfd := length_le_removeFirstDot_succ code
    cases hnil : removeFirstDot code with
    | nil =>
      rw [hnil] at hrfd
      simp at hrfd
      omega
    | cons x xs => simp


theorem extract_fast_fst_invalid (oracle : Strategy → Option (List Char))
    (pdf_path now : List Char) (redo_empty track_errors : Bool)
    (hnone : filterLoopFast (matcher
      (extract_text_from_pdf oracle pdf_path Strategy.fast track_errors).1) = none) :
    (extract_fast oracle pdf_path now redo_empty track_errors).1 =
      (extract_ocr_only oracle pdf_path now track_errors).1 := by
  unfold extract_fast
  simp only [hnone]

theorem extract_fast_empty (oracle : Strategy → Option (List Char))
    (pdf_path now : List Char) (redo_empty track_errors : Bool)
    (hm : matcher (extract_text_from_pdf oracle pdf_path Strategy.fast
      track_errors).1 = []) :
    extract_fast oracle pdf_path now redo_empty track_errors =
      (if redo_empty then
        ((extract_ocr_only oracle pdf_path now track_errors).1,
          (LogEvent.processing Strategy.fast pdf_path ::
            (extract_text_from_pdf oracle pdf_path Strategy.fast track_errors).2) ++
            LogEvent.emptySwitch ::
              (extract_ocr_only oracle pdf_path now track_errors).2)
      else
        (attemptResult Strategy.fast pdf_path now [],
          (LogEvent.processing Strategy.fast pdf_path ::
            (extract_text_from_pdf oracle pdf_path Strategy.fast track_errors).2) ++
            [LogEvent.emptyAdvisory])) := by
  unfold extract_fast
  simp only [hm]
  simp [filterLoopFast]

/-!  Claim theorems. -/

/-- C1: for every document processed with strategy Fast, if the
candidate list produced by the Matcher contains at least one invalid
candidate, the controller discards the Fast attempt and returns the
outcome of a fresh OcrOnly extraction of the same document, whatever
the `redo_empty` flag. -/
theorem claim_C1_invalid_candidate_escalation
    (oracle : Strategy → Option (List Char)) (pdf_path now : List Char)
    (redo_empty track_errors : Bool)
    (h : (matcher (extract_text_from_pdf oracle pdf_path Strategy.fast
      track_errors).1).any isInvalidCode = true) :
    (extract_sector_codes oracle pdf_path now Strategy.fast redo_empty
        track_errors).1 =
      (extract_sector_codes oracle pdf_path now Strategy.ocr_only redo_empty
        track_errors).1 := by
  have hnone := (filterLoopFast_eq_none_iff _).mpr h
  simp only [extract_sector_codes]
  exact extract_fast_fst_invalid oracle pdf_path now redo_empty track_errors hnone

/-- C1 witness: the scenario text `"... paritaire : 12 ..."` yields the
sole candidate `"12"`, which is invalid, and escalation happens for
both values of `redo_empty`. -/
theorem claim_C1_witness :
    (matcher (extract_text_from_pdf scenarioOracle1 "d.pdf".data Strategy.fast
      false).1).any isInvalidCode = true ∧
    (extract_sector_codes scenarioOracle1 "d.pdf".data "t".data Strategy.fast
        true false).1 =
      (extract_sector_codes scenarioOracle1 "d.pdf".data "t".data
        Strategy.ocr_only true false).1 ∧
    (extract_sector_codes scenarioOracle1 "d.pdf".data "t".data Strategy.fast
        false false).1 =
      (extract_sector_codes scenarioOracle1 "d.pdf".data "t".data
        Strategy.ocr_only false false).1 :=
  ⟨by decide,
    claim_C1_invalid_candidate_escalation scenarioOracle1 "d.pdf".data "t".data
      true false (by decide),
    claim_C1_invalid_candidate_escalation scenarioOracle1 "d.pdf".data "t".data
      false false (by decide)⟩

/-- C2 counterexample: the candidate `"123.4.5"` has integer portion
`"123"` of length 3 and consists entirely of digits once ALL periods
are stripped, so the claimed rule accepts it, but the Validator rejects
it (`replace(".", "", 1)` strips only the first period, leaving
`"1234.5"`, which is not all digits). -/
theorem claim_C2_counterexample :
    specValidCode "123.4.5".data = true ∧
    isValidCode "123.4.5".data = false := by
  decide

/-- C2 amended: the Validator accepts a candidate if and only if the
portion before the first period has length at least 3, the candidate
contains AT MOST ONE period, and every non-period character is a digit;
at the boundary an integer portion of length exactly 2 is rejected and
length exactly 3 is accepted. -/
theorem claim_C2_validator_characterisation :
    (∀ code : List Char, isValidCode code = true ↔
      (3 ≤ (takeBeforeDot code).length ∧ code.count '.' ≤ 1 ∧
        ∀ d ∈ code, d = '.' ∨ d.isDigit = true)) ∧
    isValidCode "12".data = false ∧ isValidCode "123".data = true :=
  ⟨isValidCode_iff, by decide, by decide⟩

/-- C3: with strategy Fast, when the valid and invalid candidate
subsets are both empty, the controller re-runs extraction with OcrOnly
if `redo_empty` is set; otherwise it accepts an outcome with zero codes
and emits the advisory notice, without escalating (exactly one
`Processing` message). -/
theorem claim_C3_empty_result_policy
    (oracle : Strategy → Option (List Char)) (pdf_path now : List Char)
    (redo_empty track_errors : Bool)
    (hinv : invalidSubset (matcher (extract_text_from_pdf oracle pdf_path
      Strategy.fast track_errors).1) = [])
    (hval : validSubset (matcher (extract_text_from_pdf oracle pdf_path
      Strategy.fast track_errors).1) = []) :
    (redo_empty = true →
      (extract_sector_codes oracle pdf_path now Strategy.fast redo_empty
          track_errors).1 =
        (extract_sector_codes oracle pdf_path now Strategy.ocr_only redo_empty
          track_errors).1) ∧
    (redo_empty = false →
      (extract_sector_codes oracle pdf_path now Strategy.fast redo_empty
          track_errors).1 =
        { documentName := basename pdf_path, sectorCodes := [],
          numberOfCodes := 0, processingTime := now, usedOcrOnly := false } ∧
      LogEvent.emptyAdvisory ∈ (extract_sector_codes oracle pdf_path now
        Strategy.fast redo_empty track_errors).2 ∧
      processingCount (extract_sector_codes oracle pdf_path now Strategy.fast
        redo_empty track_errors).2 = 1) := by
  have hm := eq_nil_of_subsets_nil _ hinv hval
  have hfe := extract_fast_empty oracle pdf_path now redo_empty track_errors hm
  have htext := processingCount_extract_text oracle pdf_path Strategy.fast
    track_errors
  constructor
  · intro hr
    subst hr
    simp only [extract_sector_codes, hfe, if_true]
  · intro hr
    subst hr
    simp only [extract_sector_codes, hfe, Bool.false_eq_true, if_false]
    refine ⟨?_, ?_, ?_⟩
    · simp [attemptResult, joinCodes]
    · simp
    · simp only [processingCount] at htext ⊢
      simp [List.countP_cons, List.countP_append, htext]

/-- C3 witness: a marker-free text, strategy Fast, `redo_empty = false`:
accepted with count 0, advisory notice, one single attempt. -/
theorem claim_C3_witness :
    (extract_sector_codes scenarioOracle3 "d.pdf".data "t".data Strategy.fast
        false false).1 =
      { documentName := "d.pdf".data, sectorCodes := [], numberOfCodes := 0,
        processingTime := "t".data, usedOcrOnly := false } ∧
    LogEvent.emptyAdvisory ∈ (extract_sector_codes scenarioOracle3 "d.pdf".data
      "t".data Strategy.fast false false).2 ∧
    processingCount (extract_sector_codes scenarioOracle3 "d.pdf".data "t".data
      Strategy.fast false false).2 = 1 :=
  (claim_C3_empty_result_policy scenarioOracle3 "d.pdf".data "t".data false
    false (by decide) (by decide)).2 rfl

/-- C4: the controller performs at most two extraction attempts, and an
attempt with strategy OcrOnly performs exactly one (it never re-invokes
extraction), for every oracle and every flag combination. -/
theorem claim_C4_at_most_two_attempts
    (oracle : Strategy → Option (List Char)) (pdf_path now : List Char)
    (strategy : Strategy) (redo_empty track_errors : Bool) :
    processingCount ((extract_sector_codes oracle pdf_path now strategy
      redo_empty track_errors).2) ≤ 2 ∧
    processingCount ((extract_sector_codes oracle pdf_path now Strategy.ocr_only
      redo_empty track_errors).2) = 1 := by
  have hocr := processingCount_extract_ocr_only oracle pdf_path now track_errors
  constructor
  · cases strategy with
    | fast =>
      simp only [extract_sector_codes]
      exact processingCount_extract_fast_le oracle pdf_path now redo_empty
        track_errors
    | ocr_only =>
      simp only [extract_sector_codes, hocr]
      omega
  · simp only [extract_sector_codes, hocr]

/-- C5: after two upserts with the same document identifier the table
holds exactly one row for that identifier, equal to the second outcome,
and every upsert preserves the at-most-one-row-per-identifier
invariant. -/
theorem claim_C5_last_write_wins :
    (∀ (df : List Outcome) (o1 o2 : Outcome),
      o1.documentName = o2.documentName →
      (upsert (upsert df o1) o2).filter
        (fun r => (r.documentName = o2.documentName : Bool)) = [o2]) ∧
    (∀ (df : List Outcome) (o : Outcome) (d : List Char),
      df.countP (fun r => (r.documentName = d : Bool)) ≤ 1 →
      (upsert df o).countP (fun r => (r.documentName = d : Bool)) ≤ 1) :=
  ⟨fun df o1 o2 _ => filter_upsert_self (upsert df o1) o2,
    fun df o d h => countP_upsert_le df o d h⟩

/-- C5 witness: two concrete upserts for `a.pdf` leave exactly the
second outcome, and the invariant is preserved on a concrete table. -/
theorem claim_C5_witness :
    (upsert (upsert [] scenarioOutcome1) scenarioOutcome2).filter
      (fun r => (r.documentName = scenarioOutcome2.documentName : Bool)) =
        [scenarioOutcome2] ∧
    (upsert [scenarioOutcome1] scenarioOutcome2).countP
      (fun r => (r.documentName = "a.pdf".data : Bool)) ≤ 1 :=
  ⟨claim_C5_last_write_wins.1 [] scenarioOutcome1 scenarioOutcome2 (by decide),
    claim_C5_last_write_wins.2 [scenarioOutcome1] scenarioOutcome2 "a.pdf".data
      (by decide)⟩

/-- C6 counterexample: for the text `"paritaire ...."` the regex finds
one match (the whole text), the match contains no digit, yet the
Matcher contributes ONE candidate for the block — the empty string —
because Python's `"".split(";")` is `[""]`; the claimed contribution of
zero candidates is wrong. -/
theorem claim_C6_counterexample :
    findall scenarioText6 = [scenarioText6] ∧
    (∀ c ∈ scenarioText6, c.isDigit = false) ∧
    matcher scenarioText6 = [[]] := by
  decide

/-- C6 amended: every marker match contributes at least one candidate
(possibly the empty string) to the returned sequence, and a match with
no digit characters contributes only candidates that contain no digit
(hence all invalid). -/
theorem claim_C6_no_digit_block (t m : List Char) (hm : m ∈ findall t) :
    1 ≤ (processBlock m).length ∧
    (∀ tok ∈ processBlock m, tok ∈ matcher t) ∧
    ((∀ c ∈ m, c.isDigit = false) →
      ∀ tok ∈ processBlock m, ∀ c ∈ tok, c.isDigit = false) := by
  refine ⟨?_, ?_, ?_⟩
  · have h1 : processBlock m ≠ [] :=
      splitSemi_ne_nil (collapseSpaces (pyStrip (cleanSub (pyStrip m))))
    have h2 := List.length_pos.mpr h1
    omega
  · intro tok htok
    unfold matcher
    rw [List.mem_flatten]
    exact ⟨processBlock m, List.mem_map_of_mem processBlock hm, htok⟩
  · intro hnd tok htok c hc
    have h1 : c ∈ collapseGo false (pyStrip (cleanSub (pyStrip m))) :=
      mem_of_mem_splitSemi _ tok htok c hc
    rcases mem_collapseGo _ false c h1 with h2 | h2
    · subst h2
      rfl
    · have h3 := mem_of_mem_pyStrip _ c h2
      rcases mem_cleanGo _ CleanState.top c h3 with h4 | h4 | h4
      · subst h4
        rfl
      · subst h4
        rfl
      · exact hnd c (mem_of_mem_pyStrip _ c h4)

/-- C6 witness: the digit-free block `"paritaire ...."` contributes its
single empty-string candidate, which is digit-free. -/
theorem claim_C6_witness :
    scenarioText6 ∈ findall scenarioText6 ∧
    (1 ≤ (processBlock scenarioText6).length ∧
      (∀ tok ∈ processBlock scenarioText6, tok ∈ matcher scenarioText6) ∧
      ((∀ c ∈ scenarioText6, c.isDigit = false) →
        ∀ tok ∈ processBlock scenarioText6, ∀ c ∈ tok, c.isDigit = false)) :=
  ⟨by decide, claim_C6_no_digit_block scenarioText6 scenarioText6 (by decide)⟩

/-- C7: the scenario text `"... paritaires n° 118.01 218 ..."` under
strategy Fast yields exactly the candidates `"118.01"` and `"218"` in
that order, both valid, and the accepted outcome has sector-codes
string `"118.01; 218"`, count 2 and `usedOcrOnly = false`. -/
theorem claim_C7_scenario_two_codes :
    matcher scenarioText7 = ["118.01".data, "218".data] ∧
    isValidCode "118.01".data = true ∧
    isValidCode "218".data = true ∧
    (extract_sector_codes scenarioOracle7 "committee.pdf".data "t7".data
        Strategy.fast false false).1 =
      { documentName := "committee.pdf".data,
        sectorCodes := "118.01; 218".data, numberOfCodes := 2,
        processingTime := "t7".data, usedOcrOnly := false } := by
  decide

/-- C8: re-applying the same outcome is observationally a no-op on the
table: upsert is idempotent for identical outcomes. -/
theorem claim_C8_upsert_idempotent (df : List Outcome) (o : Outcome) :
    upsert (upsert df o) o = upsert df o := by
  simp [upsert, List.filter_append, List.filter_filter]

/-- C9: when the external text extractor fails, the engine treats the
document as having empty text, records the document path in the skipped
log, proceeds with an empty candidate set, and the attempt follows the
empty-result path (advisory acceptance or OcrOnly redo) instead of
aborting. -/
theorem claim_C9_extractor_failure
    (oracle : Strategy → Option (List Char)) (pdf_path now : List Char)
    (redo_empty track_errors : Bool)
    (h : oracle Strategy.fast = none) :
    (extract_text_from_pdf oracle pdf_path Strategy.fast track_errors).1 = [] ∧
    LogEvent.skippedFile pdf_path ∈
      (extract_sector_codes oracle pdf_path now Strategy.fast redo_empty
        track_errors).2 ∧
    (redo_empty = false →
      (extract_sector_codes oracle pdf_path now Strategy.fast redo_empty
          track_errors).1 =
        { documentName := basename pdf_path, sectorCodes := [],
          numberOfCodes := 0, processingTime := now, usedOcrOnly := false } ∧
      LogEvent.emptyAdvisory ∈ (extract_sector_codes oracle pdf_path now
        Strategy.fast redo_empty track_errors).2) ∧
    (redo_empty = true →
      (extract_sector_codes oracle pdf_path now Strategy.fast redo_empty
          track_errors).1 =
        (extract_sector_codes oracle pdf_path now Strategy.ocr_only redo_empty
          track_errors).1) := by
  have htext : extract_text_from_pdf oracle pdf_path Strategy.fast
      track_errors =
      ([], (if track_errors then [LogEvent.errorLoading pdf_path] else []) ++
        [LogEvent.skippedFile pdf_path]) := by
    simp [extract_text_from_pdf, h]
  have hm : matcher (extract_text_from_pdf oracle pdf_path Strategy.fast
      track_errors).1 = [] := by
    rw [htext]
    rfl
  have hfe := extract_fast_empty oracle pdf_path now redo_empty track_errors hm
  refine ⟨by rw [htext], ?_, ?_, ?_⟩
  · simp only [extract_sector_codes, hfe]
    cases redo_empty <;> cases track_errors <;>
      simp [htext, List.mem_append, List.mem_cons]
  · intro hr
    subst hr
    simp only [extract_sector_codes, hfe, Bool.false_eq_true, if_false]
    exact ⟨by simp [attemptResult, joinCodes], by simp⟩
  · intro hr
    subst hr
    simp only [extract_sector_codes, hfe, if_true]

/-- C9 witness: a failing oracle on a concrete document with
`redo_empty = false`. -/
theorem claim_C9_witness :
    LogEvent.skippedFile "f.pdf".data ∈
      (extract_sector_codes (fun _ => none) "f.pdf".data "t".data Strategy.fast
        false false).2 ∧
    (extract_sector_codes (fun _ => none) "f.pdf".data "t".data Strategy.fast
        false false).1 =
      { documentName := "f.pdf".data, sectorCodes := [], numberOfCodes := 0,
        processingTime := "t".data, usedOcrOnly := false } ∧
    LogEvent.emptyAdvisory ∈
      (extract_sector_codes (fun _ => none) "f.pdf".data "t".data Strategy.fast
        false false).2 := by
  have hh := claim_C9_extractor_failure (fun _ => none) "f.pdf".data "t".data
    false false rfl
  exact ⟨hh.2.1, (hh.2.2.1 rfl).1, (hh.2.2.1 rfl).2⟩

/-- C10: upserting an outcome leaves every row with a different
document identifier unchanged: the rows selected by any other
identifier are exactly what they were before. -/
theorem claim_C10_upsert_frame (df : List Outcome) (o : Outcome)
    (d : List Char) (h : ¬ d = o.documentName) :
    (upsert df o).filter (fun r => (r.documentName = d : Bool)) =
      df.filter (fun r => (r.documentName = d : Bool)) :=
  upsert_frame_filter df o d h

/-- C10 witness: a concrete upsert for `a.pdf` leaves the rows of
`b.pdf` untouched. -/
theorem claim_C10_witness :
    (upsert [scenarioOutcome1] scenarioOutcome2).filter
      (fun r => (r.documentName = "b.pdf".data : Bool)) =
      [scenarioOutcome1].filter
        (fun r => (r.documentName = "b.pdf".data : Bool)) :=
  claim_C10_upsert_frame [scenarioOutcome1] scenarioOutcome2 "b.pdf".data
    (by decide)
